import Mathlib

/-!
Verification development for the swagger-to-Angular generator
(`ng-swagger-gen.js`).  The JavaScript source is shallowly embedded:

* JS strings become `String`, JS numbers used as indices become `Nat`/`Int`;
* JS objects used as ordered string-keyed maps become association lists
  `List (String × α)` in key-iteration order;
* values that may be `undefined`/`null` become `Option`;
* a statement that throws (`TypeError` on member access of `undefined`, or
  calling a missing method) becomes `Except.error` with a message naming the
  fault;
* `console.log` calls are side effects outside the embedded slice and are
  dropped; `process.exit` paths of functions outside the claims are not
  embedded.
-/

/-- JS `String.prototype.replace` with a *string* pattern replaces only the
first occurrence of the pattern (`src/ng-swagger-gen.js` uses this at line
664 with pattern `"{"`, and at line 538 with pattern `"List<"`).  A `$`
followed by `{` in the replacement string is not an ECMAScript replacement
pattern, so the replacement text is inserted literally. -/
def replaceFirstAux (pat repl : List Char) : List Char → List Char
  | [] => if pat.isEmpty then repl else []
  | c :: rest =>
    if pat.isPrefixOf (c :: rest) then repl ++ (c :: rest).drop pat.length
    else c :: replaceFirstAux pat repl rest

def jsReplaceFirst (s pat repl : String) : String :=
  ⟨replaceFirstAux pat.toList repl.toList s.toList⟩

/-- JS `String.prototype.indexOf`: index of the first occurrence of `pat`,
`-1` when absent. -/
def indexOfAux (pat : List Char) : List Char → Nat → Option Nat
  | [], i => if pat.isEmpty then some i else none
  | c :: rest, i =>
    if pat.isPrefixOf (c :: rest) then some i else indexOfAux pat rest (i + 1)

def jsIndexOf (s pat : String) : Int :=
  match indexOfAux pat.toList s.toList 0 with
  | some i => (i : Int)
  | none => -1

/-- JS `String.prototype.substr start len` (start and length, both clamped). -/
def jsSubstr (s : String) (start len : Nat) : String :=
  ⟨(s.toList.drop start).take len⟩

/-- `simpleRef` (src 310-320): the simple name of a qualified reference is the
part after the last `/`.  The source returns `null` for a falsy (empty)
argument; the embedded slice only reaches this function with the non-empty
`$ref` strings of the input document, for which the `lastIndexOf` logic below
is the whole behaviour. -/
def lastIndexOfSlash (l : List Char) : Option Nat :=
  match indexOfAux ['/'] l.reverse 0 with
  | some i => some (l.length - 1 - i)
  | none => none

def simpleRef (ref : String) : String :=
  match lastIndexOfSlash ref.toList with
  | some i => ⟨ref.toList.drop (i + 1)⟩
  | none => ref

/-- `removeBrackets` (src 522-525): strip an array designation, `"a[]" ↦ "a"`. -/
def removeBrackets (type : String) : String :=
  match indexOfAux ['['] type.toList 0 with
  | some pos => ⟨type.toList.take pos⟩
  | none => type

/-- `toFileName` (src 292-305).  The JS `/[a-z]/` test and `toLowerCase` act on
ASCII letters, matching `Char.isLower`/`Char.toLower` on the identifiers the
generator receives. -/
def toFileNameAux : List Char → Bool → List Char
  | [], _ => []
  | c :: rest, wasLower =>
    let isLower := c.isLower
    (if !isLower && wasLower then ['-'] else []) ++ [c.toLower]
      ++ toFileNameAux rest isLower

def toFileName (typeName : String) : String :=
  ⟨toFileNameAux typeName.toList false⟩

/-- `toComments` (src 343-358).  A call without the `level` argument iterates
`i < undefined` zero times, so the omitted level is embedded as `0`. -/
def commentIndent : Nat → String
  | 0 => ""
  | n + 1 => commentIndent n ++ "  "

def toCommentsLines (indent : String) : List String → String
  | [] => ""
  | line :: rest =>
    (if line.length > 0 then indent ++ " * " ++ line ++ "\n" else "")
      ++ toCommentsLines indent rest

def toComments (text : Option String) (level : Nat) : String :=
  let indent := commentIndent level
  indent ++ "/**\n" ++ toCommentsLines indent ((text.getD "").splitOn "\n")
    ++ indent ++ " */"

/-- The unanchored regex `/2\d\d/` of src 644: some position of the string
starts with `2` followed by two ASCII digits. -/
def test2xxAux : List Char → Bool
  | c0 :: c1 :: c2 :: rest =>
    (c0 == '2' && c1.isDigit && c2.isDigit) || test2xxAux (c1 :: c2 :: rest)
  | _ => false

def test2xx (code : String) : Bool :=
  test2xxAux code.toList

/-- `toPathExpression` (src 663-665): `(path || "").replace("{", "${params.")`.
With a string pattern, `replace` rewrites only the first occurrence. -/
def toPathExpression (path : String) : String :=
  jsReplaceFirst path "\x7b" "$\x7bparams."

mutual
/-- A raw schema fragment as read by `propertyType` (src 530-592) and by the
model/parameter processing: the JS fields `$ref`, `x-type`, `type`, `items`,
`properties`, `additionalProperties`, `description`, optional when the source
tests them for presence/truthiness.  JS objects iterate `properties` in key
order; `SchemaProps` fixes that order.  (`OptSchema`/`SchemaProps` are
`Option`/an association list, declared mutually so the recursion over the
fragment tree is structural.) -/
inductive Schema where
  | mk (ref : Option String) (xtype : Option String) (type : Option String)
      (items : OptSchema) (properties : SchemaProps)
      (additionalProperties : OptSchema) (description : Option String)
/-- A possibly absent sub-fragment. -/
inductive OptSchema where
  | none
  | some (s : Schema)
/-- The ordered member properties of an `object` fragment. -/
inductive SchemaProps where
  | nil
  | cons (name : String) (s : Schema) (rest : SchemaProps)
end

/-- The value returned by `propertyType`: either a plain JS string, or the
inline-object value of src 585-588 carrying `allTypes` and the rendered
signature returned by its `toString`. -/
inductive PType where
  | str (s : String)
  | inline (allTypes : List PType) (defn : String)

def ptToString : PType → String
  | .str s => s
  | .inline _ d => d

/-- JS string truthiness of an optional `x-type` field: present and non-empty. -/
def jsTruthyStr : Option String → Bool
  | none => false
  | some s => !(s == "")

/-- `allTypes.indexOf(type) >= 0` uses strict equality: strings compare by
value; the inline-object values are freshly allocated on every resolution, so
an inline value is never found by `indexOf`. -/
def jsFoundPT (t : PType) (l : List PType) : Bool :=
  match t with
  | .str s => l.any (fun u => match u with | .str s2 => s2 == s | _ => false)
  | .inline _ _ => false

/-- The `x-type` override branch of `propertyType` (src 537-543).  Note the
second `substr` argument of the source is `type.length - 1` (an extraction
*length*, clamped to the remaining characters), not the intended trimming of
the closing `>`. -/
def xTypeOverride (x : String) : String :=
  let t0 := jsReplaceFirst x "List<" "Array<"
  let pos := jsIndexOf t0 "Array<"
  let t1 :=
    if pos ≥ 0 then jsSubstr t0 ("Array<".length) (t0.length - 1) ++ "[]"
    else t0
  if t1.length == 0 then "void" else t1

mutual
/-- `propertyType` (src 530-592): `propertyType(undefined)` is void, otherwise
dispatch on the fragment. -/
def propertyType : OptSchema → PType
  | .none => .str "void"
  | .some s => propertySchemaType s
/-- The body of `propertyType` on a present fragment: `$ref` first, then the
`x-type` vendor extension, then the `switch` on `type` (src 533-591). -/
def propertySchemaType : Schema → PType
  | .mk ref? xtype? type? items? props addl? _ =>
    match ref? with
    | some r => .str (simpleRef r)
    | none =>
      if jsTruthyStr xtype? then .str (xTypeOverride (xtype?.getD ""))
      else
        match type? with
        | some "string" => .str "string"
        | some "array" => .str (ptToString (propertyType items?) ++ "[]")
        | some "integer" => .str "number"
        | some "number" => .str "number"
        | some "boolean" => .str "Boolean"
        | some "object" =>
          let st := ptProps props true "\x7b" []
          match addl? with
          | .some _ =>
            let t := propertyType addl?
            let ats :=
              if jsFoundPT t st.2.2 then st.2.2 else st.2.2 ++ [t]
            let d :=
              (if !st.1 then st.2.1 ++ ", " else st.2.1)
                ++ "[key: string]: " ++ ptToString t
            .inline ats (d ++ "\x7d")
          | .none => .inline st.2.2 (st.2.1 ++ "\x7d")
        | _ => .str "any"
/-- The member-property loop of an inline `object` fragment (src 559-573),
threading the `first` flag, the signature string under construction and
`allTypes`. -/
def ptProps : SchemaProps → Bool → String → List PType →
    (Bool × String × List PType)
  | .nil, first, d, ats => (first, d, ats)
  | .cons n sch rest, first, d, ats =>
    let t := propertySchemaType sch
    let d2 := (if first then d else d ++ ", ") ++ n ++ ": " ++ ptToString t
    let ats2 := if jsFoundPT t ats then ats else ats ++ [t]
    ptProps rest false d2 ats2
end

/-- Shorthand for a fragment with only a `type` field. -/
def Schema.prim (t : String) : Schema :=
  .mk none none (some t) .none .nil .none none

/-- Shorthand for a fragment with only a `$ref` field. -/
def Schema.reference (r : String) : Schema :=
  .mk (some r) none none .none .nil .none none

/-- Shorthand for an inline `object` fragment with the given members. -/
def SchemaProps.ofList : List (String × Schema) → SchemaProps
  | [] => .nil
  | (n, s) :: rest => .cons n s (SchemaProps.ofList rest)

def Schema.objectOf (props : List (String × Schema)) : Schema :=
  .mk none none (some "object") .none (SchemaProps.ofList props) .none none

/-- Presence test for an optional sub-fragment. -/
def OptSchema.isSomeO : OptSchema → Bool
  | .none => false
  | .some _ => true

/-- A response object of an operation: only its optional `schema` member is
read (src 640-643). -/
structure ResponseDef where
  schema : OptSchema

/-- The JS falsiness test `!operationResponses.resultType` of src 653 on a
stored type value: an empty string is falsy, an inline-object value and every
non-empty string are truthy. -/
def jsFalsyPT : PType → Bool
  | .str s => s == ""
  | .inline _ _ => false

/-- The result of `processResponses` (src 635-657): the JS object holds one
entry per schema-carrying code plus the extra `resultType` property; the
embedding keeps the code-keyed entries (in insertion order) and `resultType`
as separate fields. -/
structure OperationResponses where
  responses : List (String × PType)
  resultType : PType

/-- One iteration of the `for (var code in responses)` loop of src 638-652:
codes without a schema are skipped; a schema-carrying code appends its entry,
and when the code matches `/2\d\d/` its type overwrites the accumulated
`resultType`. -/
def processResponsesStep (acc : List (String × PType) × Option PType)
    (cr : String × ResponseDef) : List (String × PType) × Option PType :=
  match cr.2.schema with
  | .none => acc
  | .some sch =>
    let t := propertySchemaType sch
    (acc.1 ++ [(cr.1, t)], if test2xx cr.1 then some t else acc.2)

/-- `processResponses` (src 635-657).  After the loop, a falsy `resultType`
(never assigned, or assigned an empty string) is replaced by `"void"`. -/
def processResponses (responses : List (String × ResponseDef)) :
    OperationResponses :=
  let r := responses.foldl processResponsesStep ([], none)
  { responses := r.1
    resultType :=
      match r.2 with
      | some t => if jsFalsyPT t then .str "void" else t
      | none => .str "void" }

/-- Spec-side definition of the amended C3 claim: the designated result type
is the type of the LAST declared status code that both carries a schema and
matches the `2xx` pattern, with void when there is none (or when that type is
the empty string, which the source treats as falsy). -/
def specLast2xxResultType (responses : List (String × ResponseDef)) : PType :=
  match (responses.filter
      (fun cr => cr.2.schema.isSomeO && test2xx cr.1)).getLast? with
  | none => .str "void"
  | some cr =>
    let t := propertyType cr.2.schema
    if jsFalsyPT t then .str "void" else t


def Schema.descriptionField : Schema → Option String
  | .mk _ _ _ _ _ _ d => d

/-- A property descriptor as built by `processProperties` (src 602-607).  The
source only ever assigns `last` later (src 452-455); it is embedded as a
`Bool` that construction initialises to `false`. -/
structure PropertyDescriptor where
  propertyName : String
  propertyComments : String
  propertyRequired : Bool
  propertyType : PType
  last : Bool

/-- `processProperties` (src 598-611): an object keyed by property name, in
key order, of property descriptors.  `requiredProperties.indexOf(name) >= 0`
is membership. -/
def processProperties : SchemaProps → List String →
    List (String × PropertyDescriptor)
  | .nil, _ => []
  | .cons n p rest, req =>
    (n,
      { propertyName := n
        propertyComments := toComments p.descriptionField 0
        propertyRequired := req.contains n
        propertyType := propertySchemaType p
        last := false }) :: processProperties rest req

/-- The member access `a.modelName` performed by the sort comparator of
src 448-451: the compared values are property descriptors (src 602-607),
which carry no `modelName` field, so the access yields `undefined`. -/
def propertyDescriptorModelName (_ : PropertyDescriptor) : Option String :=
  none

/-- JS `<` on two characters by numeric code, as used by the string
relational operators. -/
def jsCharLt (a b : Char) : Bool :=
  decide (a.toNat < b.toNat)

/-- JS `<` on two strings: lexicographic by character code, a proper prefix
being smaller. -/
def jsStrLtList : List Char → List Char → Bool
  | _, [] => false
  | [], _ :: _ => true
  | a :: as, b :: bs =>
    if jsCharLt a b then true
    else if jsCharLt b a then false
    else jsStrLtList as bs

def jsStrLt (a b : String) : Bool :=
  jsStrLtList a.toList b.toList

/-- JS `<` between possibly-undefined operands: a comparison with `undefined`
is `false` (NaN relational semantics); two strings compare lexicographically. -/
def jsLtUndef (x y : Option String) : Bool :=
  match x, y with
  | some a, some b => jsStrLt a b
  | _, _ => false

/-- The comparator passed to `modelProperties.sort` at src 448-451. -/
def modelPropertiesCompare (a b : PropertyDescriptor) : Int :=
  if jsLtUndef (propertyDescriptorModelName a) (propertyDescriptorModelName b)
    then -1
  else if jsLtUndef (propertyDescriptorModelName b)
      (propertyDescriptorModelName a) then 1
  else 0

def modelPropLE (a b : PropertyDescriptor) : Prop :=
  modelPropertiesCompare a b ≤ 0

instance : DecidableRel modelPropLE :=
  fun a b => Int.decLe (modelPropertiesCompare a b) 0

/-- `modelProperties.sort(comparator)` (src 448-451): the ECMAScript sort
contract with a consistent comparator determines the stable sorted order,
realized by Mathlib's stable insertion sort over `comparator ≤ 0`. -/
def sortModelProperties (l : List PropertyDescriptor) : List PropertyDescriptor :=
  List.insertionSort modelPropLE l

/-- Src 452-455: flag the final element of the sorted property list. -/
def setLastProperty : List PropertyDescriptor → List PropertyDescriptor
  | [] => []
  | [p] => [{ p with last := true }]
  | p :: q :: rest => p :: setLastProperty (q :: rest)

/-- The ordered `modelProperties` sequence a built Object model ends up with
(src 442-456): the descriptors of `descriptor.properties` in key order,
sorted with the comparator, final element flagged. -/
def buildModelProperties (properties : SchemaProps)
    (requiredProperties : List String) : List PropertyDescriptor :=
  setLastProperty (sortModelProperties
    ((processProperties properties requiredProperties).map (fun kv => kv.2)))

/-- The slice of a built model descriptor (src 428-440) carrying the fields
that `processServices` and the dependencies resolver read. -/
structure Model where
  modelName : String
  modelIsObject : Bool
  modelIsEnum : Bool

/-- JS string-keyed object lookup `m[k]` over the association-list embedding. -/
def jsLookup {α : Type} (m : List (String × α)) (k : String) : Option α :=
  (m.find? (fun p => p.1 == k)).map (fun p => p.2)

/-- An argument passed to `DependenciesResolver.prototype.add` (src 372-381):
either `undefined` (src 784-786 reads `.type` of the stored `resultType`
value, which has no such field) or a resolved type value. -/
inductive DepArg where
  | undef
  | pt (t : PType)

/-- The mutable state of a `DependenciesResolver` (src 363-368). -/
structure ResolverState where
  dependencies : List Model
  dependencyNames : List String

/-- `DependenciesResolver.prototype.add` (src 372-381).
`removeBrackets(dep)` evaluates `dep.indexOf("[")`:
* on a string it strips an array designation;
* on `undefined`, `(dep || "")` is `""`, `indexOf` misses, and `dep` stays
  `undefined`; the subsequent name/ownType/`models[dep]` tests never push, so
  the call is a no-op;
* on an inline-object type value (truthy, but without an `indexOf` method)
  the call throws a `TypeError`. -/
def resolverAdd (models : List (String × Model)) (ownType : Option String)
    (st : ResolverState) (arg : DepArg) : Except String ResolverState :=
  match arg with
  | .undef => .ok st
  | .pt (.inline _ _) => .error "TypeError: type.indexOf is not a function"
  | .pt (.str s) =>
    let dep := removeBrackets s
    if !(st.dependencyNames.contains dep) && !(ownType == some dep) then
      match jsLookup models dep with
      | some depModel =>
        .ok ⟨st.dependencies ++ [depModel], st.dependencyNames ++ [dep]⟩
      | none => .ok st
    else .ok st

/-- A sequence of `add` calls on one resolver, starting from the given state. -/
def resolverAddAll (models : List (String × Model)) (ownType : Option String)
    (st : ResolverState) (args : List DepArg) : Except String ResolverState :=
  match args with
  | [] => .ok st
  | a :: rest =>
    match resolverAdd models ownType st a with
    | .ok st2 => resolverAddAll models ownType st2 rest
    | .error e => .error e

/-- A built model record as traversed by `collectDependencies` (src 249-258):
its name and its `modelDependencies`.  In the source the dependency entries
are in-memory references to other model records (a possibly cyclic object
graph); the embedding represents a reference by the referenced name, resolved
through `lookupModel`, with a null/undefined reference represented by a name
that resolves to nothing. -/
structure GraphModel where
  modelName : String
  modelDependencies : List String

def lookupModel (models : List GraphModel) (n : String) : Option GraphModel :=
  models.find? (fun m => m.modelName == n)

/-- `collectDependencies` (src 249-258): a missing/undefined model is ignored,
an already collected name returns immediately, otherwise the name is added
and every `modelDependencies` entry is visited recursively (`forEach` is the
fold).  The JS recursion has no fuel; the embedding adds one to make the
definition total, and the stabilisation theorem below shows a fuel beyond the
number of uncollected models never changes the result — which is exactly the
visited-set termination argument. -/
def collectDependencies (models : List GraphModel) (fuel : Nat)
    (dependencies : List String) (model : Option GraphModel) : List String :=
  match fuel, model with
  | 0, _ => dependencies
  | _ + 1, none => dependencies
  | f + 1, some m =>
    if m.modelName ∈ dependencies then dependencies
    else m.modelDependencies.foldl
      (fun deps dep => collectDependencies models f deps (lookupModel models dep))
      (dependencies ++ [m.modelName])

/-- A declared operation parameter as read from the document (src 709-733).
The JS field `in` is embedded as `location`.  Reference parameters
(src 711-713) are resolved against the document root before this record is
read; the embedded inputs declare parameters inline, so the record below is
the post-resolution view. -/
structure ParamDef where
  name : String
  location : String
  required : Bool
  type : Option String
  items : OptSchema
  schema : OptSchema
  xtype : Option String
  description : Option String
  collectionFormat : Option String

/-- The parameter descriptor built at src 720-733.  `last` is only assigned
later (src 742-744) and is initialised `false`. -/
structure ParamDescriptor where
  paramName : String
  paramIn : String
  paramRequired : Bool
  paramIsQuery : Bool
  paramIsPath : Bool
  paramIsHeader : Bool
  paramIsBody : Bool
  paramIsArray : Bool
  paramDescription : Option String
  paramComments : String
  paramType : PType
  paramCollectionFormat : Option String
  last : Bool

/-- The parameter-object view handed to `propertyType(param)` at src 718: the
parameter's own `x-type`, `type` and `items` fields (it has no `$ref` at this
point). -/
def paramAsSchema (p : ParamDef) : Schema :=
  .mk none p.xtype p.type p.items .nil .none p.description

/-- Src 714-733: the effective type comes from `schema` when present, else
from the parameter's own fields; `paramRequired` is
`param.required === true || param.in === 'path'`. -/
def buildParamDescriptor (p : ParamDef) : ParamDescriptor :=
  { paramName := p.name
    paramIn := p.location
    paramRequired := p.required || p.location == "path"
    paramIsQuery := p.location == "query"
    paramIsPath := p.location == "path"
    paramIsHeader := p.location == "header"
    paramIsBody := p.location == "body"
    paramIsArray := p.type == some "array"
    paramDescription := p.description
    paramComments := toComments p.description 1
    paramType :=
      match p.schema with
      | .some sch => propertySchemaType sch
      | .none => propertySchemaType (paramAsSchema p)
    paramCollectionFormat := p.collectionFormat
    last := false }

/-- The comparator passed to `operationParameters.sort` at src 736-741:
required parameters first, then by name descending. -/
def paramCompare (a b : ParamDescriptor) : Int :=
  if a.paramRequired && !b.paramRequired then -1
  else if !a.paramRequired && b.paramRequired then 1
  else if jsStrLt b.paramName a.paramName then -1
  else if jsStrLt a.paramName b.paramName then 1
  else 0

def paramLE (a b : ParamDescriptor) : Prop :=
  paramCompare a b ≤ 0

instance : DecidableRel paramLE :=
  fun a b => Int.decLe (paramCompare a b) 0

/-- `operationParameters.sort(comparator)` (src 736-741): the ECMAScript sort
contract with this consistent comparator determines the stable sorted order,
realized by Mathlib's stable insertion sort over `comparator ≤ 0`. -/
def sortOperationParameters (ps : List ParamDescriptor) : List ParamDescriptor :=
  List.insertionSort paramLE ps

/-- Src 742-744: flag the final parameter of the sorted order. -/
def setLastParam : List ParamDescriptor → List ParamDescriptor
  | [] => []
  | [p] => [{ p with last := true }]
  | p :: q :: rest => p :: setLastParam (q :: rest)

/-- The parameter list an operation ends up with (src 708-744): build each
descriptor, sort, flag the last. -/
def buildOperationParameters (defs : List ParamDef) : List ParamDescriptor :=
  setLastParam (sortOperationParameters (defs.map buildParamDescriptor))

/-- JS `id.charAt(0).toUpperCase() + id.substr(1)` (src 746). -/
def jsCapitalize (id : String) : String :=
  match id.toList with
  | [] => ""
  | c :: rest => ⟨c.toUpper :: rest⟩

/-- JS string conversion of a possibly-undefined value in a concatenation:
`undefined` prints as `"undefined"` (src 752 concatenates
`param.paramDescription` unguarded). -/
def jsStringOfOpt (o : Option String) : String :=
  o.getD "undefined"

/-- The `@param` lines appended to the doc string at src 750-753. -/
def docParams : List ParamDescriptor → String
  | [] => ""
  | p :: rest =>
    "\n@param " ++ p.paramName ++ " - " ++ jsStringOfOpt p.paramDescription
      ++ docParams rest

/-- An operation object of the document: `tags`, `operationId`, `parameters`,
`description`, `responses` (src 680-747). -/
structure OpDef where
  tags : List String
  operationId : Option String
  parameters : List ParamDef
  description : Option String
  responses : List (String × ResponseDef)

/-- The operation record built at src 754-775. -/
structure Operation where
  operationName : String
  operationParamsClass : Option String
  operationMethod : String
  operationPath : String
  operationPathExpression : String
  operationComments : String
  operationResultType : PType
  operationParameters : List ParamDescriptor
  operationResponses : OperationResponses
  operationIsVoid : Bool
  operationIsString : Bool
  operationIsNumber : Bool
  operationIsBoolean : Bool
  operationIsEnum : Bool
  operationIsObject : Bool
  operationIsUnknown : Bool

/-- The service descriptor created at src 693-699.  `serviceDependencies` is
only assigned at src 793 and is absent (`none`) until then. -/
structure Service where
  serviceName : String
  serviceClass : String
  serviceFile : String
  serviceOperations : List Operation
  serviceDependencies : Option (List Model)

def newService (tag : String) : Service :=
  { serviceName := tag
    serviceClass := tag ++ "Service"
    serviceFile := toFileName tag ++ ".service"
    serviceOperations := []
    serviceDependencies := none }

/-- JS object assignment `m[k] = v`: an existing key keeps its position, a new
key is appended. -/
def assocSet {α : Type} : List (String × α) → String → α → List (String × α)
  | [], k, v => [(k, v)]
  | (k2, v2) :: rest, k, v =>
    if k2 == k then (k, v) :: rest else (k2, v2) :: assocSet rest k v

/-- In-place mutation of the record stored under an existing key. -/
def assocUpdate {α : Type} (m : List (String × α)) (k : String) (f : α → α) :
    List (String × α) :=
  m.map (fun p => if p.1 == k then (p.1, f p.2) else p)

/-- Strict equality `t === s` between a stored type value and a string
literal (src 765-768): true only for the equal plain string. -/
def ptIsStr (t : PType) (s : String) : Bool :=
  match t with
  | .str x => x == s
  | .inline _ _ => false

/-- `removeBrackets` applied to a stored result-type value (src 769):
a string is stripped normally; an inline-object value has no `indexOf`
method, so the call throws. -/
def removeBracketsPT : PType → Except String String
  | .str s => .ok (removeBrackets s)
  | .inline _ _ => .error "TypeError: type.indexOf is not a function"

/-- The state threaded through `processServices`: the `services` object and
the function-scoped `tag` variable of src 690, which persists across loop
iterations (`descriptor` always aliases `services[tag]`, so the tag is
enough to recover it). -/
structure ServicesState where
  services : List (String × Service)
  lastTag : Option String

/-- One iteration of the method loop of `processServices` (src 675-777).
An operation with zero or several tags is skipped (src 680-689; the
source's log lines there read the undeclared variable `name`, a fault of its
own under the module's strict mode — logging is outside the embedded slice).
An operation without an id is skipped after its tag has already created the
service and been recorded (src 690-707). -/
def processOperation (models : List (String × Model)) (url : String)
    (st : ServicesState) (method : String) (d : OpDef) :
    Except String ServicesState :=
  match d.tags with
  | [] => .ok st
  | _ :: _ :: _ => .ok st
  | [tag] =>
    let services1 :=
      match jsLookup st.services tag with
      | some _ => st.services
      | none => assocSet st.services tag (newService tag)
    match d.operationId with
    | none => .ok ⟨services1, some tag⟩
    | some id => do
      let operationParameters := buildOperationParameters d.parameters
      let paramsClass :=
        if operationParameters.length == 0 then none
        else some (jsCapitalize id ++ "Params")
      let operationResponses := processResponses d.responses
      let resultType := operationResponses.resultType
      let docString := (d.description.getD "") ++ docParams operationParameters
      let rb ← removeBracketsPT resultType
      let modelResult := jsLookup models rb
      let operationIsVoid := ptIsStr resultType "void"
      let operationIsString := ptIsStr resultType "string"
      let operationIsNumber := ptIsStr resultType "number"
      let operationIsBoolean := ptIsStr resultType "boolean"
      let operationIsEnum :=
        match modelResult with | some m => m.modelIsEnum | none => false
      let operationIsObject :=
        match modelResult with | some m => m.modelIsObject | none => false
      let operation : Operation :=
        { operationName := id
          operationParamsClass := paramsClass
          operationMethod := method.toLower
          operationPath := url
          operationPathExpression := toPathExpression url
          operationComments := toComments (some docString) 1
          operationResultType := resultType
          operationParameters := operationParameters
          operationResponses := operationResponses
          operationIsVoid := operationIsVoid
          operationIsString := operationIsString
          operationIsNumber := operationIsNumber
          operationIsBoolean := operationIsBoolean
          operationIsEnum := operationIsEnum
          operationIsObject := operationIsObject
          operationIsUnknown := !(operationIsVoid || operationIsString
            || operationIsNumber || operationIsBoolean || operationIsEnum
            || operationIsObject) }
      let services2 := assocUpdate services1 tag
        (fun sv => { sv with
          serviceOperations := sv.serviceOperations ++ [operation] })
      .ok ⟨services2, some tag⟩

/-- The `add` arguments contributed by one operation to the service resolver
(src 784-791).  The `for (var code in op.operationResponses)` loop visits the
code-keyed entries and also the extra `resultType` property; the value stored
there is the type itself, whose `.type` member access yields `undefined`, so
the resolver receives one `undefined` argument for it (a no-op).  JS key
order only affects the order of the `add` calls. -/
def serviceDepArgs (op : Operation) : List DepArg :=
  (op.operationResponses.responses.map (fun kv => DepArg.pt kv.2))
    ++ [DepArg.undef]
    ++ (op.operationParameters.map (fun p => DepArg.pt p.paramType))

/-- The dependency-resolution block of src 780-793, run with a fresh resolver
whose `ownType` argument is not passed (`undefined`). -/
def resolveServiceDependencies (models : List (String × Model))
    (ops : List Operation) : Except String (List Model) := do
  let st ← ops.foldlM
    (fun st op => resolverAddAll models none st (serviceDepArgs op))
    (⟨[], []⟩ : ResolverState)
  .ok st.dependencies

/-- One iteration of the path loop of `processServices` (src 673-794): run
the method loop, then execute src 778-793, which reads the function-scoped
`tag`/`descriptor` variables.  When no operation of any path so far has
passed the tag check, `descriptor` is still `undefined` and
`descriptor.serviceOperations` throws; otherwise the dependencies of the
service last assigned to `descriptor` are (re)computed and stored. -/
def processPath (models : List (String × Model)) (st : ServicesState)
    (url : String) (methods : List (String × OpDef)) :
    Except String ServicesState := do
  let st2 ← methods.foldlM
    (fun s kv => processOperation models url s kv.1 kv.2) st
  match st2.lastTag with
  | none => .error "TypeError: cannot read serviceOperations of undefined"
  | some tag =>
    match jsLookup st2.services tag with
    | none => .error "TypeError: cannot read serviceOperations of undefined"
    | some descriptor => do
      let deps ← resolveServiceDependencies models descriptor.serviceOperations
      .ok ⟨assocUpdate st2.services tag
        (fun sv => { sv with serviceDependencies := some deps }), st2.lastTag⟩

/-- `processServices` (src 671-796) over the embedded document slice. -/
def processServices (models : List (String × Model))
    (paths : List (String × List (String × OpDef))) :
    Except String (List (String × Service)) := do
  let st ← paths.foldlM
    (fun s kv => processPath models s kv.1 kv.2)
    (⟨[], none⟩ : ServicesState)
  .ok st.services

/-- The retention test of `applyTagFilter` (src 218):
`!includeTags || includeTags.indexOf(serviceName) >= 0`.  An absent
(null/undefined) `includeTags` is falsy, so everything is included; an array
— even an empty one — is truthy, so inclusion is decided by membership
alone. -/
def jsInclude (includeTags : Option (List String)) (serviceName : String) :
    Bool :=
  match includeTags with
  | none => true
  | some tags => tags.contains serviceName

/-- The service-retention loop of `applyTagFilter` (src 215-228): a
non-included service is deleted from the mapping (deleting the key under
iteration is equivalent to filtering); the `usedModels` accumulation of the
retained branch and the later model pruning are outside this slice. -/
def applyTagFilterServices (services : List (String × Service))
    (includeTags : Option (List String)) : List (String × Service) :=
  services.filter (fun kv => jsInclude includeTags kv.1)

/-! Concrete inputs used by the claim theorems and witnesses. -/

/-- An operation declaring `tags: []`. -/
def exUntaggedOp : OpDef :=
  { tags := []
    operationId := some "getP"
    parameters := []
    description := none
    responses := [] }

/-- A one-model mapping. -/
def exFooModel : Model :=
  { modelName := "Foo", modelIsObject := true, modelIsEnum := false }

def exModelsFoo : List (String × Model) := [("Foo", exFooModel)]

/-- An operation whose only response declares an inline `object` schema (on a
non-2xx code, so the operation record itself is built and the fault is
reached inside the dependency-resolution block). -/
def exInlineRespOp : OpDef :=
  { tags := ["A"]
    operationId := some "opA"
    parameters := []
    description := none
    responses :=
      [("400", ⟨.some (Schema.objectOf
        [("foo", Schema.reference "#/definitions/Foo")])⟩)] }

/-- A query parameter declaration with just a name and a required flag. -/
def exQueryParam (n : String) (req : Bool) : ParamDef :=
  { name := n
    location := "query"
    required := req
    type := some "string"
    items := .none
    schema := .none
    xtype := none
    description := none
    collectionFormat := none }

/-- The parameter list of the C8 example:
`[{name:"b",required:false},{name:"a",required:true},{name:"c",required:true}]`. -/
def exC8Params : List ParamDef :=
  [exQueryParam "b" false, exQueryParam "a" true, exQueryParam "c" true]

/-- Properties declared in the order `b`, `a`. -/
def exPropsBA : SchemaProps :=
  .ofList [("b", Schema.prim "string"), ("a", Schema.prim "string")]

/-- Responses declaring `200` (string schema) then `201` (integer schema);
`200` is the first declared 2xx code carrying a schema, in the ascending
numeric order JS iterates such keys in. -/
def exResponses200201 : List (String × ResponseDef) :=
  [("200", ⟨.some (Schema.prim "string")⟩),
   ("201", ⟨.some (Schema.prim "integer")⟩)]

/-- A cyclic model graph `A → B → A` where `A` also lists a dependency name
with no model behind it. -/
def exGraphA : GraphModel := ⟨"A", ["B", "Missing"]⟩

def exGraphB : GraphModel := ⟨"B", ["A"]⟩

def exGraph : List GraphModel := [exGraphA, exGraphB]

/-- The fragment `{ "x-type": "List<Foo>" }`. -/
def exXTypeListFoo : Schema :=
  .mk none (some "List<Foo>") none .none .nil .none none

/-- The number of models whose name is not yet collected: the measure the
visited-set argument of `collectDependencies` decreases. -/
def unvisitedCount (models : List GraphModel) (deps : List String) : Nat :=
  (models.filter (fun m => decide (m.modelName ∉ deps))).length

/-- The ordering the C8 claim describes on built parameter descriptors:
every required parameter precedes every optional one, and within one group
names descend (`jsStrLt a b = false` is JS `a >= b`). -/
def paramClaimOrder (a b : ParamDescriptor) : Prop :=
  (a.paramRequired = true ∧ b.paramRequired = false)
  ∨ (a.paramRequired = b.paramRequired
      ∧ jsStrLt a.paramName b.paramName = false)

/-! The claim theorems. -/

/-- C1: the claim says every `{var}` placeholder is rewritten to
`${params.var}`.  The source (src 663-665) calls `replace` with the string
pattern `"{"`, which rewrites only the first occurrence, so the template
`/a/{var1}/b/{var2}` keeps its second placeholder untouched — contradicting
the function's own doc comment (src 659-662). -/
theorem toPathExpression_replaces_only_first :
    toPathExpression "/a/\x7bvar1\x7d/b/\x7bvar2\x7d"
      = "/a/$\x7bparams.var1\x7d/b/\x7bvar2\x7d"
    ∧ "/a/$\x7bparams.var1\x7d/b/\x7bvar2\x7d"
      ≠ "/a/$\x7bparams.var1\x7d/b/$\x7bparams.var2\x7d" :=
  ⟨by rfl, by decide⟩

/-- C2: the claim says an operation with zero (or several) tags is dropped
non-fatally and generation continues.  The skip itself is a `continue`
(src 681-689), but after the method loop src 778-793 unconditionally reads
the function-scoped `descriptor`; on a document whose first path holds only
such operations, `descriptor` is still `undefined` and
`descriptor.serviceOperations` throws, aborting generation. -/
theorem processServices_aborts_when_first_path_has_no_tagged_operation :
    processServices [] [("/p", [("get", exUntaggedOp)])]
      = .error "TypeError: cannot read serviceOperations of undefined" := by
  rfl

/-- C6: the claim says a service's dependencies include the model names
nested inside inline structural types of its operations' responses and
parameters.  The dependency block (src 780-793) — unlike the model-side
block at src 504-509 — passes the inline type value itself to
`DependenciesResolver.add`, where `removeBrackets` calls `indexOf` on it and
throws a `TypeError`, so such nested names are never collected. -/
theorem processServices_inline_type_faults_service_dependencies :
    processServices exModelsFoo [("/c6", [("get", exInlineRespOp)])]
      = .error "TypeError: type.indexOf is not a function" := by
  rfl

/-- C9: the claim says a `List<T>` vendor override yields exactly `T[]`.
The override branch (src 537-543) extracts
`substr("Array<".length, type.length - 1)`, whose second argument is a
length (clamped to the remaining characters), so the closing `>` survives:
`List<Foo>` resolves to `Foo>[]`, not `Foo[]`. -/
theorem xType_list_notation_keeps_angle_bracket :
    propertyType (.some exXTypeListFoo) = .str "Foo>[]"
    ∧ PType.str "Foo>[]" ≠ PType.str "Foo[]" := by
  refine ⟨by rfl, fun h => ?_⟩
  rw [PType.str.injEq] at h
  exact absurd h (by decide)

/-- C4 (counter-evaluation): the claim says the ordered property sequence of
an Object model is sorted ascending by name.  The comparator (src 448-451)
reads `modelName`, a field property descriptors (src 602-607) do not have,
so every comparison yields `0` and the stable sort keeps declaration order:
properties declared `b`, `a` stay `[b, a]`. -/
theorem modelProperties_keep_declaration_order :
    ((buildModelProperties exPropsBA []).map (fun p => p.propertyName)
      = ["b", "a"])
    ∧ ((buildModelProperties exPropsBA []).map (fun p => p.last)
      = [false, true])
    ∧ (["b", "a"] : List String) ≠ ["a", "b"] :=
  ⟨by rfl, by rfl, by decide⟩

/-- C5 (counterexample): the claim says an empty `includeTags` retains every
service.  The retention test (src 218) is
`!includeTags || includeTags.indexOf(serviceName) >= 0`; an empty array is
truthy and contains nothing, so with `includeTags = []` every service is
removed. -/
theorem applyTagFilter_empty_include_removes_service :
    applyTagFilterServices [("A", newService "A")] (some []) = []
    ∧ ([("A", newService "A")] : List (String × Service)) ≠ [] :=
  ⟨by rfl, by simp⟩

/-- C5 (amended): if `includeTags` is absent (null/undefined) every service
is retained; if it is present — including present and empty — a service is
retained iff its name is a member, and non-retained services are removed
from the mapping. -/
theorem applyTagFilter_retention_by_membership :
    (∀ services : List (String × Service),
      applyTagFilterServices services none = services)
    ∧ (∀ (services : List (String × Service)) (l : List String),
      applyTagFilterServices services (some l)
        = services.filter (fun kv => l.contains kv.1)) := by
  constructor
  · intro s
    simp [applyTagFilterServices, jsInclude]
  · intro s l
    rfl

/-- C3 (counterexample): the claim says the *first* declared 2xx code with a
schema supplies the result type.  With `200` (string) declared before `201`
(number), the loop of src 638-652 overwrites `resultType` on every matching
code, so the last one wins: the result type is `number`, not the first
code's `string`. -/
theorem processResponses_first_2xx_not_result :
    ((processResponses exResponses200201).resultType = .str "number")
    ∧ ((exResponses200201.filter
        (fun cr => cr.2.schema.isSomeO && test2xx cr.1)).head?
      = some ("200", ⟨.some (Schema.prim "string")⟩))
    ∧ (propertyType (.some (Schema.prim "string")) = .str "string")
    ∧ PType.str "number" ≠ PType.str "string" := by
  refine ⟨by rfl, by rfl, by rfl, fun h => ?_⟩
  rw [PType.str.injEq] at h
  exact absurd h (by decide)

/-- The fold of `processResponses` keeps, in its second component, the type
of the last schema-carrying response so far whose code matches `/2\d\d/`. -/
theorem processResponses_fold_resultType (rs : List (String × ResponseDef)) :
    ∀ acc : List (String × PType) × Option PType,
    (rs.foldl processResponsesStep acc).2
      = match (rs.filter
            (fun cr => cr.2.schema.isSomeO && test2xx cr.1)).getLast? with
        | some cr => some (propertyType cr.2.schema)
        | none => acc.2 := by
  induction rs with
  | nil => intro acc; rfl
  | cons cr rest ih =>
    intro acc
    rw [List.foldl_cons, ih]
    by_cases hk : (cr.2.schema.isSomeO && test2xx cr.1) = true
    · obtain ⟨sch, hsch⟩ : ∃ sch, cr.2.schema = .some sch := by
        cases h2 : cr.2.schema with
        | none => rw [h2] at hk; exact absurd hk (by simp [OptSchema.isSomeO])
        | some s => exact ⟨s, rfl⟩
      have htest : test2xx cr.1 = true := by
        rw [hsch] at hk; simpa [OptSchema.isSomeO] using hk
      have hstep : (processResponsesStep acc cr).2
          = some (propertyType cr.2.schema) := by
        simp [processResponsesStep, hsch, htest, propertyType]
      rw [List.filter_cons_of_pos (p := fun (x : String × ResponseDef) => x.2.schema.isSomeO && test2xx x.1) hk]
      cases hfr : rest.filter (fun cr => cr.2.schema.isSomeO && test2xx cr.1) with
      | nil => simp [hfr, hstep]
      | cons x xs =>
        simp only [hfr, List.getLast?_cons_cons]
        cases hxy : (x :: xs).getLast? with
        | none => simp at hxy
        | some y => rfl
    · have hnk : (cr.2.schema.isSomeO && test2xx cr.1) = false := by
        simpa using hk
      have hstep : (processResponsesStep acc cr).2 = acc.2 := by
        unfold processResponsesStep
        cases h2 : cr.2.schema with
        | none => rfl
        | some sch =>
          have : test2xx cr.1 = false := by
            rw [h2] at hnk; simpa [OptSchema.isSomeO] using hnk
          simp [this]
      rw [List.filter_cons_of_neg (p := fun (x : String × ResponseDef) => x.2.schema.isSomeO && test2xx x.1) (by simp [hnk])]
      cases (rest.filter
          (fun cr => cr.2.schema.isSomeO && test2xx cr.1)).getLast? <;>
        simp [hstep]

/-- C3 (amended): the designated result type is the type of the *last*
declared status code carrying a schema and matching the 2xx pattern (in key
iteration order); if no 2xx response carries a schema the result type is the
void marker (as it also is when that type is the falsy empty string). -/
theorem processResponses_resultType_is_last_2xx :
    ∀ rs : List (String × ResponseDef),
      (processResponses rs).resultType = specLast2xxResultType rs := by
  intro rs
  show (match (rs.foldl processResponsesStep ([], none)).2 with
    | some t => if jsFalsyPT t then PType.str "void" else t
    | none => PType.str "void") = specLast2xxResultType rs
  rw [processResponses_fold_resultType rs ([], none)]
  unfold specLast2xxResultType
  cases (rs.filter
      (fun cr => cr.2.schema.isSomeO && test2xx cr.1)).getLast? with
  | none => rfl
  | some cr => rfl

/-- Every `add` call preserves the resolver invariant: the stored names and
stored model records correspond pairwise through the models mapping, and the
stored names are pairwise distinct. -/
theorem resolverAdd_invariant (models : List (String × Model))
    (ownType : Option String) (a : DepArg) (st st2 : ResolverState)
    (h1 : List.Forall₂ (fun n m => jsLookup models n = some m)
      st.dependencyNames st.dependencies)
    (h2 : st.dependencyNames.Nodup)
    (heq : resolverAdd models ownType st a = .ok st2) :
    List.Forall₂ (fun n m => jsLookup models n = some m)
      st2.dependencyNames st2.dependencies
    ∧ st2.dependencyNames.Nodup := by
  match a with
  | .undef =>
    cases heq
    exact ⟨h1, h2⟩
  | .pt (.inline ats d) =>
    exact absurd heq (by simp [resolverAdd])
  | .pt (.str s) =>
    simp only [resolverAdd] at heq
    by_cases hc : (!(st.dependencyNames.contains (removeBrackets s))
        && !(ownType == some (removeBrackets s))) = true
    · rw [if_pos hc] at heq
      cases hl : jsLookup models (removeBrackets s) with
      | none =>
        rw [hl] at heq
        cases heq
        exact ⟨h1, h2⟩
      | some depModel =>
        rw [hl] at heq
        cases heq
        constructor
        · exact List.rel_append h1 (List.Forall₂.cons hl List.Forall₂.nil)
        · have hc1 : st.dependencyNames.contains (removeBrackets s) = false := by
            rcases (Bool.and_eq_true _ _).mp hc with ⟨x, _⟩
            simpa using x
          have hnot : removeBrackets s ∉ st.dependencyNames := by
            simp at hc1
            exact hc1
          simp [List.nodup_append, h2, hnot]
    · rw [if_neg hc] at heq
      cases heq
      exact ⟨h1, h2⟩

/-- A run of `add` calls preserves the resolver invariant. -/
theorem resolverAddAll_invariant (models : List (String × Model))
    (ownType : Option String) :
    ∀ (args : List DepArg) (st st2 : ResolverState),
    List.Forall₂ (fun n m => jsLookup models n = some m)
      st.dependencyNames st.dependencies →
    st.dependencyNames.Nodup →
    resolverAddAll models ownType st args = .ok st2 →
    List.Forall₂ (fun n m => jsLookup models n = some m)
      st2.dependencyNames st2.dependencies
    ∧ st2.dependencyNames.Nodup := by
  intro args
  induction args with
  | nil =>
    intro st st2 h1 h2 heq
    cases heq
    exact ⟨h1, h2⟩
  | cons a rest ih =>
    intro st st2 h1 h2 heq
    simp only [resolverAddAll] at heq
    cases ha : resolverAdd models ownType st a with
    | error e => rw [ha] at heq; exact absurd heq (by simp)
    | ok stMid =>
      rw [ha] at heq
      obtain ⟨hm1, hm2⟩ := resolverAdd_invariant models ownType a st stMid h1 h2 ha
      exact ih stMid st2 hm1 hm2 heq

/-- C10: whenever a resolver run succeeds from an empty state (as every
`modelDependencies` computation at src 487-511 and every
`serviceDependencies` computation at src 780-793 does), each stored
dependency is the model record found in the models mapping under its stored
(bracket-stripped) name — candidates that resolve to nothing are silently
excluded — and the stored names are pairwise distinct, so each resolved
model occurs at most once. -/
theorem resolver_dependencies_resolved_and_unique
    (models : List (String × Model)) (ownType : Option String)
    (args : List DepArg) (st2 : ResolverState)
    (heq : resolverAddAll models ownType ⟨[], []⟩ args = .ok st2) :
    List.Forall₂ (fun n m => jsLookup models n = some m)
      st2.dependencyNames st2.dependencies
    ∧ st2.dependencyNames.Nodup :=
  resolverAddAll_invariant models ownType args ⟨[], []⟩ st2
    List.Forall₂.nil List.nodup_nil heq

/-- Witness for C10 at a concrete resolver run: `Foo[]` resolves to the `Foo`
record, `string` resolves to nothing and is dropped, the repeated `Foo` is
dropped, the `undefined` argument is a no-op. -/
theorem resolver_dependencies_resolved_and_unique_witness :
    resolverAddAll exModelsFoo none ⟨[], []⟩
        [.pt (.str "Foo[]"), .pt (.str "string"), .pt (.str "Foo"), .undef]
      = .ok ⟨[exFooModel], ["Foo"]⟩
    ∧ (List.Forall₂ (fun n m => jsLookup exModelsFoo n = some m)
        ["Foo"] [exFooModel]
      ∧ (["Foo"] : List String).Nodup) :=
  ⟨by rfl,
    resolver_dependencies_resolved_and_unique exModelsFoo none
      [.pt (.str "Foo[]"), .pt (.str "string"), .pt (.str "Foo"), .undef]
      ⟨[exFooModel], ["Foo"]⟩ (by rfl)⟩

/-- JS string `<` is asymmetric. -/
theorem jsStrLtList_asymm :
    ∀ as bs, jsStrLtList as bs = true → jsStrLtList bs as = false := by
  intro as
  induction as with
  | nil =>
    intro bs h
    cases bs with
    | nil => simp [jsStrLtList] at h
    | cons b bs2 => simp [jsStrLtList]
  | cons a as2 ih =>
    intro bs h
    cases bs with
    | nil => simp [jsStrLtList] at h
    | cons b bs2 =>
      simp only [jsStrLtList, jsCharLt, decide_eq_true_eq] at h ⊢
      split_ifs at h ⊢ <;> first
        | rfl
        | omega
        | simp at h
        | exact ih bs2 h

/-- JS string `<` is negatively transitive: if neither `as < bs` nor
`bs < cs` then not `as < cs`. -/
theorem jsStrLtList_negtrans :
    ∀ as bs cs, jsStrLtList as bs = false → jsStrLtList bs cs = false →
    jsStrLtList as cs = false := by
  intro as
  induction as with
  | nil =>
    intro bs cs h1 h2
    cases bs with
    | nil =>
      cases cs with
      | nil => rfl
      | cons c cs2 => simp [jsStrLtList] at h2
    | cons b bs2 => simp [jsStrLtList] at h1
  | cons a as2 ih =>
    intro bs cs h1 h2
    cases cs with
    | nil => rfl
    | cons c cs2 =>
      cases bs with
      | nil => simp [jsStrLtList] at h2
      | cons b bs2 =>
        simp only [jsStrLtList, jsCharLt, decide_eq_true_eq] at h1 h2 ⊢
        split_ifs at h1 h2 ⊢ <;> first
          | rfl
          | omega
          | simp at h1
          | simp at h2
          | exact ih bs2 cs2 h1 h2

/-- The comparator order `paramCompare a b <= 0` is exactly the claim's
required-first, name-descending order. -/
theorem paramLE_iff (a b : ParamDescriptor) :
    paramLE a b ↔ paramClaimOrder a b := by
  unfold paramLE paramCompare paramClaimOrder
  cases ha : a.paramRequired <;> cases hb : b.paramRequired <;>
    simp only [Bool.true_and, Bool.false_and, Bool.and_true, Bool.and_false,
      Bool.not_true, Bool.not_false, Bool.true_and, if_true, if_false,
      Bool.false_eq_true, Bool.true_eq_false, and_false, false_and, and_true,
      true_and, false_or, or_false, if_neg, ite_false, ite_true]
  case false.false =>
    cases hba : jsStrLt b.paramName a.paramName with
    | true =>
      have hab : jsStrLt a.paramName b.paramName = false :=
        jsStrLtList_asymm _ _ hba
      simp [hab]
    | false =>
      cases hab : jsStrLt a.paramName b.paramName <;> simp [hab]
  case false.true => simp
  case true.false => simp
  case true.true =>
    cases hba : jsStrLt b.paramName a.paramName with
    | true =>
      have hab : jsStrLt a.paramName b.paramName = false :=
        jsStrLtList_asymm _ _ hba
      simp [hab]
    | false =>
      cases hab : jsStrLt a.paramName b.paramName <;> simp [hab]

/-- The comparator order is total. -/
theorem paramLE_total : ∀ a b : ParamDescriptor, paramLE a b ∨ paramLE b a := by
  intro a b
  rw [paramLE_iff, paramLE_iff]
  unfold paramClaimOrder
  cases ha : a.paramRequired <;> cases hb : b.paramRequired <;> simp
  case false.false =>
    cases hab : jsStrLt a.paramName b.paramName with
    | true => exact Or.inr (jsStrLtList_asymm _ _ hab)
    | false => exact Or.inl rfl
  case true.true =>
    cases hab : jsStrLt a.paramName b.paramName with
    | true => exact Or.inr (jsStrLtList_asymm _ _ hab)
    | false => exact Or.inl rfl

/-- The comparator order is transitive. -/
theorem paramLE_trans : ∀ a b c : ParamDescriptor,
    paramLE a b → paramLE b c → paramLE a c := by
  intro a b c hab hbc
  rw [paramLE_iff] at hab hbc ⊢
  unfold paramClaimOrder at hab hbc ⊢
  rcases hab with ⟨ha, hb⟩ | ⟨hab_eq, hab_lt⟩ <;>
    rcases hbc with ⟨hb2, hc⟩ | ⟨hbc_eq, hbc_lt⟩
  · rw [hb] at hb2; exact absurd hb2 (by simp)
  · exact Or.inl ⟨ha, hbc_eq ▸ hb⟩
  · exact Or.inl ⟨hab_eq ▸ hb2, hc⟩
  · exact Or.inr ⟨hab_eq.trans hbc_eq,
      jsStrLtList_negtrans _ _ _ hab_lt hbc_lt⟩

/-- Flagging the last parameter only changes `last` flags: every member of
the result agrees with some member of the input on `paramRequired` and
`paramName`. -/
theorem mem_setLastParam :
    ∀ (l : List ParamDescriptor) (x : ParamDescriptor), x ∈ setLastParam l →
    ∃ y ∈ l, x.paramRequired = y.paramRequired ∧ x.paramName = y.paramName := by
  intro l
  induction l with
  | nil => intro x hx; simp [setLastParam] at hx
  | cons p rest ih =>
    intro x hx
    cases rest with
    | nil =>
      simp [setLastParam] at hx
      exact ⟨p, by simp, by simp [hx]⟩
    | cons q rest2 =>
      simp only [setLastParam, List.mem_cons] at hx
      rcases hx with rfl | hx2
      · exact ⟨x, by simp, rfl, rfl⟩
      · obtain ⟨y, hy, e1, e2⟩ := ih x hx2
        exact ⟨y, List.mem_cons_of_mem p hy, e1, e2⟩

/-- Flagging the last parameter preserves the claim order. -/
theorem sorted_setLastParam :
    ∀ l : List ParamDescriptor, List.Sorted paramClaimOrder l →
    List.Sorted paramClaimOrder (setLastParam l) := by
  intro l
  induction l with
  | nil => intro h; exact h
  | cons p rest ih =>
    intro h
    rw [List.sorted_cons] at h
    cases rest with
    | nil => simp [setLastParam, List.Sorted]
    | cons q rest2 =>
      show List.Sorted paramClaimOrder (p :: setLastParam (q :: rest2))
      rw [List.sorted_cons]
      constructor
      · intro x hx
        obtain ⟨y, hy, e1, e2⟩ := mem_setLastParam (q :: rest2) x hx
        have hrel := h.1 y hy
        unfold paramClaimOrder at hrel ⊢
        rw [e1, e2]
        exact hrel
      · exact ih h.2

/-- Flagging the last parameter sets the flag on exactly the final element,
provided the flags start out clear. -/
theorem setLastParam_map_last :
    ∀ l : List ParamDescriptor, (∀ p ∈ l, p.last = false) →
    (setLastParam l).map (fun p => p.last)
      = List.replicate (l.length - 1) false
        ++ List.replicate (min l.length 1) true := by
  intro l
  induction l with
  | nil => intro _; rfl
  | cons p rest ih =>
    intro hall
    cases rest with
    | nil => simp [setLastParam]
    | cons q rest2 =>
      have hp : p.last = false := hall p (by simp)
      have hrest : ∀ x ∈ q :: rest2, x.last = false :=
        fun x hx => hall x (List.mem_cons_of_mem p hx)
      show (p :: setLastParam (q :: rest2)).map (fun p => p.last) = _
      rw [List.map_cons, ih hrest, hp]
      simp [List.replicate_succ]

/-- C8: the built parameter order places required parameters before optional
ones with each group ordered by name descending (the comparator of
src 736-741), the `last` flag is set on exactly the final parameter of the
resulting order, and the example
`[{name:"b",required:false},{name:"a",required:true},{name:"c",required:true}]`
yields the order `[c, a, b]`. -/
theorem operationParameters_required_first_name_descending :
    (∀ defs : List ParamDef,
      List.Sorted paramClaimOrder (buildOperationParameters defs))
    ∧ ((buildOperationParameters exC8Params).map (fun p => p.paramName)
      = ["c", "a", "b"])
    ∧ ((buildOperationParameters exC8Params).map (fun p => p.last)
      = [false, false, true])
    ∧ (∀ defs : List ParamDef,
      (buildOperationParameters defs).map (fun p => p.last)
        = List.replicate (defs.length - 1) false
          ++ List.replicate (min defs.length 1) true) := by
  refine ⟨?_, by rfl, by rfl, ?_⟩
  · intro defs
    have hs : List.Sorted paramLE
        (sortOperationParameters (defs.map buildParamDescriptor)) :=
      @List.sorted_insertionSort _ paramLE _ ⟨paramLE_total⟩
        ⟨paramLE_trans⟩ (defs.map buildParamDescriptor)
    have hs2 : List.Sorted paramClaimOrder
        (sortOperationParameters (defs.map buildParamDescriptor)) :=
      List.Pairwise.imp (fun hab => (paramLE_iff _ _).1 hab) hs
    exact sorted_setLastParam _ hs2
  · intro defs
    have hperm := List.perm_insertionSort paramLE (defs.map buildParamDescriptor)
    have hlen : (sortOperationParameters (defs.map buildParamDescriptor)).length
        = defs.length := by
      unfold sortOperationParameters
      rw [hperm.length_eq, List.length_map]
    have hfalse : ∀ p ∈ sortOperationParameters (defs.map buildParamDescriptor),
        p.last = false := by
      intro p hp
      have hp2 := hperm.mem_iff.mp hp
      rw [List.mem_map] at hp2
      obtain ⟨d, _, hd⟩ := hp2
      rw [← hd]
      rfl
    show (setLastParam
        (sortOperationParameters (defs.map buildParamDescriptor))).map
        (fun p => p.last) = _
    rw [setLastParam_map_last _ hfalse, hlen]

/-- A missing/undefined model leaves the collected set untouched, whatever
the fuel. -/
theorem collectDependencies_none (models : List GraphModel) (f : Nat)
    (deps : List String) : collectDependencies models f deps none = deps := by
  cases f <;> rfl

/-- Unfolding equation of `collectDependencies` on a present model. -/
theorem collectDependencies_succ_some (models : List GraphModel) (f : Nat)
    (deps : List String) (m : GraphModel) :
    collectDependencies models (f + 1) deps (some m)
      = if m.modelName ∈ deps then deps
        else m.modelDependencies.foldl
          (fun d e => collectDependencies models f d (lookupModel models e))
          (deps ++ [m.modelName]) := by
  rfl

/-- The collected set only grows: the input names survive in the output, both
for one visit and for the fold over an edge list. -/
theorem collectDependencies_subset_aux (models : List GraphModel) :
    ∀ f : Nat,
    (∀ (deps : List String) (m : Option GraphModel),
      deps ⊆ collectDependencies models f deps m)
    ∧ (∀ (es deps : List String),
      deps ⊆ es.foldl
        (fun d e => collectDependencies models f d (lookupModel models e))
        deps) := by
  intro f
  induction f with
  | zero =>
    constructor
    · intro deps m
      cases m <;> simp [collectDependencies]
    · intro es
      induction es with
      | nil => intro deps; exact fun x h => h
      | cons e rest ihe =>
        intro deps
        rw [List.foldl_cons]
        intro x hx
        exact ihe _ (by simp [collectDependencies] at *; exact hx)
  | succ f ih =>
    have hcd : ∀ (deps : List String) (m : Option GraphModel),
        deps ⊆ collectDependencies models (f + 1) deps m := by
      intro deps m
      cases m with
      | none =>
        rw [collectDependencies_none]
        exact fun x h => h
      | some mm =>
        rw [collectDependencies_succ_some]
        split
        · exact fun x h => h
        · exact (List.subset_append_left _ _).trans (ih.2 _ _)
    refine ⟨hcd, ?_⟩
    intro es
    induction es with
    | nil => intro deps; exact fun x h => h
    | cons e rest ihe =>
      intro deps
      rw [List.foldl_cons]
      exact (hcd deps _).trans (ihe _)

/-- Collecting more names can only shrink the number of unvisited models. -/
theorem unvisitedCount_anti (models : List GraphModel) {d1 d2 : List String}
    (h : d1 ⊆ d2) : unvisitedCount models d2 ≤ unvisitedCount models d1 := by
  unfold unvisitedCount
  induction models with
  | nil => simp
  | cons m rest ih =>
    by_cases h2 : m.modelName ∈ d2
    · have c2 : decide (m.modelName ∉ d2) = false := by simp [h2]
      by_cases h1 : m.modelName ∈ d1
      · have c1 : decide (m.modelName ∉ d1) = false := by simp [h1]
        rw [List.filter_cons, List.filter_cons, c1, c2,
          if_neg Bool.false_ne_true, if_neg Bool.false_ne_true]
        exact ih
      · have c1 : decide (m.modelName ∉ d1) = true := by simp [h1]
        rw [List.filter_cons, List.filter_cons, c1, c2,
          if_neg Bool.false_ne_true, if_pos rfl, List.length_cons]
        exact le_trans ih (Nat.le_succ _)
    · have h1 : m.modelName ∉ d1 := fun hm => h2 (h hm)
      have c2 : decide (m.modelName ∉ d2) = true := by simp [h2]
      have c1 : decide (m.modelName ∉ d1) = true := by simp [h1]
      rw [List.filter_cons, List.filter_cons, c1, c2, if_pos rfl, if_pos rfl,
        List.length_cons, List.length_cons]
      exact Nat.succ_le_succ ih

/-- Visiting a not-yet-collected model of the mapping strictly decreases the
number of unvisited models. -/
theorem unvisitedCount_strict (models : List GraphModel) {deps : List String}
    {mm : GraphModel} (hmem : mm ∈ models) (hnot : mm.modelName ∉ deps) :
    unvisitedCount models (deps ++ [mm.modelName])
      < unvisitedCount models deps := by
  have hanti : unvisitedCount models (deps ++ [mm.modelName])
      ≤ unvisitedCount models deps :=
    unvisitedCount_anti models (List.subset_append_left _ _)
  unfold unvisitedCount at hanti ⊢
  induction models with
  | nil => cases hmem
  | cons m rest ih =>
    rcases List.mem_cons.mp hmem with rfl | hmem2
    · have hne : mm.modelName ∈ deps ++ [mm.modelName] := by simp
      have cnew : decide (mm.modelName ∉ deps ++ [mm.modelName]) = false := by
        simp
      have cold : decide (mm.modelName ∉ deps) = true := by simp [hnot]
      rw [List.filter_cons, List.filter_cons, cnew, cold,
        if_neg Bool.false_ne_true, if_pos rfl, List.length_cons]
      exact Nat.lt_succ_of_le
        (unvisitedCount_anti rest (List.subset_append_left _ _))
    · have ihr := ih hmem2
        (unvisitedCount_anti rest (List.subset_append_left _ _))
      by_cases hm : m.modelName ∈ deps ++ [mm.modelName]
      · have cnew : decide (m.modelName ∉ deps ++ [mm.modelName]) = false := by
          simp [hm]
        by_cases hmo : m.modelName ∈ deps
        · have cold : decide (m.modelName ∉ deps) = false := by simp [hmo]
          rw [List.filter_cons, List.filter_cons, cnew, cold,
            if_neg Bool.false_ne_true, if_neg Bool.false_ne_true]
          exact ihr
        · have cold : decide (m.modelName ∉ deps) = true := by simp [hmo]
          rw [List.filter_cons, List.filter_cons, cnew, cold,
            if_neg Bool.false_ne_true, if_pos rfl, List.length_cons]
          exact Nat.lt_succ_of_lt ihr
      · have hmo : m.modelName ∉ deps := fun hh => hm (List.mem_append_left _ hh)
        have cnew : decide (m.modelName ∉ deps ++ [mm.modelName]) = true := by
          simp [hm]
        have cold : decide (m.modelName ∉ deps) = true := by simp [hmo]
        rw [List.filter_cons, List.filter_cons, cnew, cold, if_pos rfl,
          if_pos rfl, List.length_cons, List.length_cons]
        exact Nat.succ_lt_succ ihr

/-- The fold of `collectDependencies` over an edge list stabilises: any two
fuels beyond the number of unvisited models give the same result.  This is
the visited-set argument: every productive visit adds a model name, so the
recursion depth never exceeds the number of models. -/
theorem cdFold_stable (models : List GraphModel) :
    ∀ (k : Nat) (es deps : List String), unvisitedCount models deps ≤ k →
    ∀ (f1 f2 : Nat), k + 1 ≤ f1 → k + 1 ≤ f2 →
    es.foldl (fun d e => collectDependencies models f1 d (lookupModel models e))
        deps
      = es.foldl
        (fun d e => collectDependencies models f2 d (lookupModel models e))
        deps := by
  intro k
  induction k using Nat.strong_induction_on with
  | _ k ihk =>
    intro es
    induction es with
    | nil => intro deps _ f1 f2 _ _; rfl
    | cons e rest ihes =>
      intro deps hphi f1 f2 hf1 hf2
      rw [List.foldl_cons, List.foldl_cons]
      cases hl : lookupModel models e with
      | none =>
        rw [collectDependencies_none, collectDependencies_none]
        exact ihes deps hphi f1 f2 hf1 hf2
      | some mm =>
        obtain ⟨a, rfl⟩ : ∃ a, f1 = a + 1 := ⟨f1 - 1, by omega⟩
        obtain ⟨b, rfl⟩ : ∃ b, f2 = b + 1 := ⟨f2 - 1, by omega⟩
        rw [collectDependencies_succ_some, collectDependencies_succ_some]
        by_cases hmem : mm.modelName ∈ deps
        · rw [if_pos hmem, if_pos hmem]
          exact ihes deps hphi _ _ hf1 hf2
        · rw [if_neg hmem, if_neg hmem]
          have hmm : mm ∈ models := List.mem_of_find?_eq_some hl
          have hk1 : 1 ≤ unvisitedCount models deps := by
            have hmmf : mm ∈ models.filter
                (fun m => decide (m.modelName ∉ deps)) :=
              List.mem_filter.mpr ⟨hmm, by simpa using hmem⟩
            unfold unvisitedCount
            exact List.length_pos.mpr (List.ne_nil_of_mem hmmf)
          have hphi2 : unvisitedCount models (deps ++ [mm.modelName]) ≤ k - 1 := by
            have := unvisitedCount_strict models hmm hmem
            omega
          have hstep := ihk (k - 1) (by omega) mm.modelDependencies
            (deps ++ [mm.modelName]) hphi2 a b (by omega) (by omega)
          rw [hstep]
          have hsub : deps ++ [mm.modelName] ⊆
              mm.modelDependencies.foldl
                (fun d e => collectDependencies models b d (lookupModel models e))
                (deps ++ [mm.modelName]) :=
            (collectDependencies_subset_aux models b).2 _ _
          have hphiR : unvisitedCount models
              (mm.modelDependencies.foldl
                (fun d e => collectDependencies models b d (lookupModel models e))
                (deps ++ [mm.modelName])) ≤ k - 1 :=
            le_trans (unvisitedCount_anti models hsub) hphi2
          exact ihk (k - 1) (by omega) rest _ hphiR (a + 1) (b + 1)
            (by omega) (by omega)

/-- C7: the dependency closure of src 249-258 terminates on every model
graph, cyclic and self-referential ones included — formalised as fuel
stabilisation: once the fuel exceeds the number of not-yet-collected models
(plus the entry visit), adding more fuel never changes the result, which is
exactly the visited-set bound on the recursion depth — and a
missing/undefined model, in the seed or behind any dependency edge, is
silently ignored. -/
theorem collectDependencies_fuel_stable_and_ignores_missing :
    (∀ (models : List GraphModel) (deps : List String)
      (m : Option GraphModel) (f1 f2 : Nat),
      unvisitedCount models deps + 2 ≤ f1 →
      unvisitedCount models deps + 2 ≤ f2 →
      collectDependencies models f1 deps m
        = collectDependencies models f2 deps m)
    ∧ (∀ (models : List GraphModel) (f : Nat) (deps : List String),
      collectDependencies models f deps none = deps) := by
  constructor
  · intro models deps m f1 f2 hf1 hf2
    cases m with
    | none => rw [collectDependencies_none, collectDependencies_none]
    | some mm =>
      obtain ⟨a, rfl⟩ : ∃ a, f1 = a + 1 := ⟨f1 - 1, by omega⟩
      obtain ⟨b, rfl⟩ : ∃ b, f2 = b + 1 := ⟨f2 - 1, by omega⟩
      rw [collectDependencies_succ_some, collectDependencies_succ_some]
      by_cases hmem : mm.modelName ∈ deps
      · rw [if_pos hmem, if_pos hmem]
      · rw [if_neg hmem, if_neg hmem]
        exact cdFold_stable models (unvisitedCount models deps)
          mm.modelDependencies (deps ++ [mm.modelName])
          (unvisitedCount_anti models (List.subset_append_left _ _))
          a b (by omega) (by omega)
  · exact collectDependencies_none

/-- Witness for C7 on the concrete cyclic graph `A → B → A` (with a dangling
edge `A → Missing`): the closure from `A` is the same at fuel `4` and fuel
`9`, and a missing seed leaves the collected set unchanged. -/
theorem collectDependencies_fuel_stable_witness :
    collectDependencies exGraph 4 [] (some exGraphA)
      = collectDependencies exGraph 9 [] (some exGraphA)
    ∧ collectDependencies exGraph 9 [] none = [] :=
  ⟨collectDependencies_fuel_stable_and_ignores_missing.1 exGraph []
      (some exGraphA) 4 9 (by decide) (by decide),
    collectDependencies_fuel_stable_and_ignores_missing.2 exGraph 9 []⟩
